import Mathlib

/-!
# Verification of bitwuzla core claims against a shallow embedding

This file embeds, in Lean 4, the parts of the bitwuzla sources relevant to
the frozen claims:

* `src/bzlaslvquant.c` — the counterexample-guided quantifier loop
  (`find_model`, `run_parallel`, `refine_exists_solver`,
  `flat_model_generate` / `flat_model_get_value`);
* `src/preprocess/pass/normalize.cpp` — the normalization pass
  (`PassNormalize::apply`, coefficient maps, equality/comparison balancing,
  `distrib_mul`, `rewrite_term`).

Machine integers are modelled as `Nat` with explicit reduction modulo `2 ^ w`.
External collaborators that are not part of the given sources (the `Node`
API of the term manager, the AIG bitblaster counter, the generic rewriter,
the assertion-vector substitution helper) are modelled from the spec and
are marked as such in their doc comments.
-/

set_option autoImplicit false

namespace Bzla

/-! ## Solver results (`BzlaSolverResult`) -/

/-- The three-valued result of a `check_sat` call. -/
inductive Result where
  | Sat
  | Unsat
  | Unknown
  deriving DecidableEq, Repr

/-! ## `find_model` (src/bzlaslvquant.c, lines 2232-2340)

The loop body is a straight-line control flow over the outcomes of the two
ground-solver `check_sat` calls.  The solver outcomes are inputs of the
embedding; the side effect on the F-solver (asserting the ground candidate
`g` vs. assuming its negation) and whether `refine_exists_solver` ran are
recorded in the output. -/

/-- The effect `find_model` has on the F-solver for the candidate `g`:
either `g` is asserted (ground case) or `¬g` is assumed. -/
inductive FAction where
  | assertedG
  | assumedNotG
  deriving DecidableEq, Repr

/-- Output of one `find_model` invocation: the returned result, the action
taken on the F-solver (if the F-solver was reached), and whether
`refine_exists_solver` was invoked. -/
structure FMOut where
  res : Result
  fAction : Option FAction
  refined : Bool
  deriving DecidableEq, Repr

/-- Embedding of `find_model` (src/bzlaslvquant.c:2232).  `skipExists`
corresponds to the `skip_exists` parameter, `hasUvars` to
`gslv->forall_uvars->table->count != 0`, `eRes` to the E-solver
`bzla_check_sat` outcome and `fRes` to the F-solver outcome.  `res` is
initialized to `Unknown`; the E-step is skipped when `skipExists`; in the
ground case `g` is asserted and the F-result returned; otherwise
`¬g` is assumed, F-`Unsat` means `Sat`, F-`Unknown` stays `Unknown`, and
F-`Sat` runs the refinement and leaves `res` at `Unknown`. -/
def find_model (skipExists hasUvars : Bool) (eRes fRes : Result) : FMOut :=
  if ¬skipExists ∧ eRes = Result.Unsat then
    ⟨Result.Unsat, none, false⟩
  else if ¬skipExists ∧ eRes = Result.Unknown then
    ⟨Result.Unknown, none, false⟩
  else if ¬hasUvars then
    ⟨fRes, some FAction.assertedG, false⟩
  else
    match fRes with
    | Result.Unsat => ⟨Result.Sat, some FAction.assumedNotG, false⟩
    | Result.Unknown => ⟨Result.Unknown, some FAction.assumedNotG, false⟩
    | Result.Sat => ⟨Result.Unknown, some FAction.assumedNotG, true⟩

/-! ## `run_parallel` (src/bzlaslvquant.c, lines 2379-2428)

After both worker threads have joined, the final result is computed from
the two bundle results.  The dual bundle solves the negated formula, so its
verdict is complemented. -/

/-- Embedding of the result selection at the end of `run_parallel`
(src/bzlaslvquant.c:2404-2426): if the primary bundle result is definite it
wins; otherwise the dual result is translated through the negation
convention (the code asserts that the dual result is then definite). -/
def run_parallel_select (primary dual : Result) : Result :=
  if primary ≠ Result.Unknown then primary
  else if dual = Result.Sat then Result.Unsat
  else Result.Sat

/-! ## `refine_exists_solver` (src/bzlaslvquant.c, lines 964-1064)

The refinement extracts the counter-example tuple `ce` (the F-model values
of the universal variables, in `forall_uvars` iteration order) and the
witnessed existential values `evar_tup`, builds a refinement formula for
the E-solver, and records `ce ↦ evar_tup` in `forall_ces`.  The code
asserts that `ce` is not already in the table (and aborts on a trivially
true refinement); both aborts are modelled by returning `none`. -/

/-- A counter-example tuple: the bit-vector values (as `Nat`s) of the
universal variables in `forall_uvars` iteration order. -/
abbrev CeTuple := List Nat

/-- Embedding of `refine_exists_solver`.  `refinementIsTrue` models the
`BZLA_ABORT(res == e_solver->true_exp, ...)` check on the built refinement;
`ce` and `evarTup` are the tuples extracted from the F-solver model; the
table `ces` lists the previous `forall_ces` entries in insertion order.
`assert(!bzla_hashptr_table_get(gslv->forall_ces, ce))` is modelled as a
guard; on success the new entry is appended. -/
def refine_exists_solver (refinementIsTrue : Bool) (ce : CeTuple)
    (evarTup : List Nat) (ces : List (CeTuple × List Nat)) :
    Option (List (CeTuple × List Nat)) :=
  if refinementIsTrue then none
  else if ce ∈ ces.map Prod.fst then none
  else some (ces ++ [(ce, evarTup)])

/-! ## Flat model (src/bzlaslvquant.c, lines 151-313)

`flat_model_generate` builds, for every counter-example `ce` in
`forall_ces`, the tuple of existential-variable values read from the
current E-solver model: a dependent existential variable (one with an entry
in `forall_evar_deps`) is looked up in the E-solver's UF model at the
argument tuple selected from `ce` (falling back to a fresh zero bit-vector
when the UF model has no entry); an independent existential variable is
read directly from the E-solver's bit-vector model, independently of `ce`. -/

/-- Dependency information of one existential variable: `none` when the
variable has no entry in `forall_evar_deps`, otherwise the list of
`uvar_index_map` positions of its argument universal variables. -/
structure EvarInfo where
  id : Nat
  deps : Option (List Nat)
  deriving DecidableEq, Repr

/-- The E-solver model, as read by `flat_model_generate`:
`bv` is `bzla_model_get_bv` on the Skolem constant of an independent
existential variable; `uf` is the (partial) function model
`bzla_model_get_fun` of a dependent one. -/
structure EModel where
  bv : Nat → Nat
  uf : Nat → List Nat → Option Nat

/-- The value stored for existential variable `ev` in the row of
counter-example `ce` (the body of the inner loop of
`flat_model_generate`, src/bzlaslvquant.c:267-309).  The fallback
`bzla_bv_new` produces a zero bit-vector. -/
def flat_model_evar_value (m : EModel) (ce : CeTuple) (ev : EvarInfo) : Nat :=
  match ev.deps with
  | some ixs => (m.uf ev.id (ixs.map fun i => ce.getD i 0)).getD 0
  | none => m.bv ev.id

/-- Embedding of `flat_model_generate`: one row per counter-example in
`forall_ces`, keyed by the counter-example tuple. -/
def flat_model_generate (m : EModel) (evars : List EvarInfo)
    (ces : List CeTuple) : List (CeTuple × List Nat) :=
  ces.map fun ce => (ce, evars.map (flat_model_evar_value m ce))

/-- Embedding of `flat_model_get_value` (src/bzlaslvquant.c:161) for an
existential variable at `evar_index_map` position `i`: with a
counter-example the row keyed by it is read; without one the first row is
read. -/
def flat_model_get_value (model : List (CeTuple × List Nat)) (i : Nat)
    (ce : Option CeTuple) : Option Nat :=
  match ce with
  | some c => (model.find? fun row => row.fst = c).map fun row => row.snd.getD i 0
  | none => model.head?.map fun row => row.snd.getD i 0

/-! ## Term model for the normalization pass

`node::Node` and `node::NodeManager` are external to the given sources
(only `normalize.cpp` is in the repository slice), so the term model is
modelled from the spec: terms are hash-consed, typed and immutable, so
structural equality of the Lean trees coincides with node identity.  Every
node kind used by `normalize.cpp` is binary or unary, so children are kept
as explicit constructor fields.  Bit-vector values are stored reduced
modulo `2 ^ w`. -/

/-- The node kinds `normalize.cpp` inspects (plus `CONSTANT`/`VALUE` for
leaves and `OTHER` for any kind the pass treats generically). -/
inductive BzKind where
  | CONSTANT
  | VALUE
  | EQUAL
  | OR
  | BV_ADD
  | BV_MUL
  | BV_NOT
  | BV_NEG
  | BV_UDIV
  | BV_UGT
  | BV_ULT
  | BV_SLT
  | BV_SHL
  | BV_SHR
  | BV_EXTRACT
  | BV_CONCAT
  | OTHER
  deriving DecidableEq, Repr

/-- Hash-consed terms, modelled from the spec as trees (identical subtrees
are the same hash-consed node).  `var` is a constant/symbol leaf of
bit-vector width `w`, `value` a bit-vector value (stored reduced modulo
`2 ^ w`), `bval` a Boolean value, `un`/`bin` the unary/binary operator
nodes. -/
inductive Node where
  | var (w : Nat) (i : Nat)
  | value (w : Nat) (v : Nat)
  | bval (b : Bool)
  | un (k : BzKind) (a : Node)
  | bin (k : BzKind) (a : Node) (b : Node)
  deriving DecidableEq, Repr

namespace Node

/-- `Node::kind()`. -/
def kind : Node → BzKind
  | var _ _ => BzKind.CONSTANT
  | value _ _ => BzKind.VALUE
  | bval _ => BzKind.VALUE
  | un k _ => k
  | bin k _ _ => k

/-- `Node::is_value()`. -/
def is_value (n : Node) : Bool :=
  n.kind = BzKind.VALUE

/-- `Node::is_inverted()` — modelled from the spec / the pass's use sites:
an inverted node is a bit-vector negation `BV_NOT` (the pass relies on
`~x = -x - 1` for it and accesses `cur[0]`). -/
def is_inverted (n : Node) : Bool :=
  n.kind = BzKind.BV_NOT

/-- `node[0]`: the first child (leaves return themselves; the pass only
reads children of operator nodes). -/
def c0 : Node → Node
  | un _ a => a
  | bin _ a _ => a
  | n => n

/-- `node[1]`: the second child. -/
def c1 : Node → Node
  | bin _ _ b => b
  | n => n

/-- `node.type().bv_size()`: the bit-vector width, modelled from the
spec's sort rules (predicates are Boolean, concat adds widths, all other
bit-vector operators keep the width of their first operand). -/
def width : Node → Nat
  | var w _ => w
  | value w _ => w
  | bval _ => 1
  | un _ a => a.width
  | bin k a b =>
    match k with
    | BzKind.BV_CONCAT => a.width + b.width
    | BzKind.EQUAL => 1
    | BzKind.OR => 1
    | BzKind.BV_UGT => 1
    | BzKind.BV_ULT => 1
    | BzKind.BV_SLT => 1
    | _ => a.width

/-- `Node::value<BitVector>()` as a `Nat` (Boolean values as 0/1). -/
def bvVal : Node → Nat
  | value _ v => v
  | bval b => if b then 1 else 0
  | _ => 0

/-- Number of nodes of the term viewed as a tree. -/
def treeSize : Node → Nat
  | var _ _ => 1
  | value _ _ => 1
  | bval _ => 1
  | un _ a => a.treeSize + 1
  | bin _ a b => a.treeSize + b.treeSize + 1

/-- All subterms (with repetitions). -/
def subterms : Node → List Node
  | var w i => [var w i]
  | value w v => [value w v]
  | bval b => [bval b]
  | un k a => un k a :: a.subterms
  | bin k a b => bin k a b :: (a.subterms ++ b.subterms)

end Node

/-- The number of distinct subterms: the node count of the hash-consed
DAG representing the term. -/
def dagCount (n : Node) : Nat :=
  n.subterms.dedup.length

/-- A total order on nodes realizing the creation-order node ids of the
term manager: proper subterms are created before their parents, so any
linear extension of the subterm order is a realizable id assignment; here
tree size is compared first and ties are broken structurally. -/
def nodeCmp : Node → Node → Ordering
  | Node.var w i, Node.var w' i' => (compare w w').then (compare i i')
  | Node.var _ _, Node.value _ _ => Ordering.lt
  | Node.var _ _, Node.bval _ => Ordering.lt
  | Node.var _ _, Node.un _ _ => Ordering.lt
  | Node.var _ _, Node.bin _ _ _ => Ordering.lt
  | Node.value _ _, Node.var _ _ => Ordering.gt
  | Node.value w v, Node.value w' v' => (compare w w').then (compare v v')
  | Node.value _ _, Node.bval _ => Ordering.lt
  | Node.value _ _, Node.un _ _ => Ordering.lt
  | Node.value _ _, Node.bin _ _ _ => Ordering.lt
  | Node.bval _, Node.var _ _ => Ordering.gt
  | Node.bval _, Node.value _ _ => Ordering.gt
  | Node.bval b, Node.bval b' => compare (if b then 1 else 0) (if b' then (1:Nat) else 0)
  | Node.bval _, Node.un _ _ => Ordering.lt
  | Node.bval _, Node.bin _ _ _ => Ordering.lt
  | Node.un _ _, Node.var _ _ => Ordering.gt
  | Node.un _ _, Node.value _ _ => Ordering.gt
  | Node.un _ _, Node.bval _ => Ordering.gt
  | Node.un k a, Node.un k' a' =>
    (compare (kindIdx k) (kindIdx k')).then (nodeCmp a a')
  | Node.un _ _, Node.bin _ _ _ => Ordering.lt
  | Node.bin _ _ _, Node.var _ _ => Ordering.gt
  | Node.bin _ _ _, Node.value _ _ => Ordering.gt
  | Node.bin _ _ _, Node.bval _ => Ordering.gt
  | Node.bin _ _ _, Node.un _ _ => Ordering.gt
  | Node.bin k a b, Node.bin k' a' b' =>
    (compare (kindIdx k) (kindIdx k')).then ((nodeCmp a a').then (nodeCmp b b'))
where
  /-- numeric index of a kind, for ordering only -/
  kindIdx : BzKind → Nat
    | BzKind.CONSTANT => 0
    | BzKind.VALUE => 1
    | BzKind.EQUAL => 2
    | BzKind.OR => 3
    | BzKind.BV_ADD => 4
    | BzKind.BV_MUL => 5
    | BzKind.BV_NOT => 6
    | BzKind.BV_NEG => 7
    | BzKind.BV_UDIV => 8
    | BzKind.BV_UGT => 9
    | BzKind.BV_ULT => 10
    | BzKind.BV_SLT => 11
    | BzKind.BV_SHL => 12
    | BzKind.BV_SHR => 13
    | BzKind.BV_EXTRACT => 14
    | BzKind.BV_CONCAT => 15
    | BzKind.OTHER => 16

/-- `a.id() < b.id()` for the realizable id order: tree size first (a
proper subterm always has a smaller id than its parent), structural
tie-break. -/
def nodeLt (a b : Node) : Bool :=
  match compare a.treeSize b.treeSize with
  | Ordering.lt => true
  | Ordering.gt => false
  | Ordering.eq => nodeCmp a b = Ordering.lt

/-! ## Bit-vector arithmetic on coefficients

`BitVector` values of width `w` are `Nat`s reduced modulo `2 ^ w`. -/

/-- Reduce modulo `2 ^ w`. -/
def bvRed (w a : Nat) : Nat := a % 2 ^ w

/-- `BitVector::ibvadd`. -/
def bvAdd (w a b : Nat) : Nat := (a + b) % 2 ^ w

/-- `BitVector::ibvsub` (two's complement). -/
def bvSub (w a b : Nat) : Nat := (a + (2 ^ w - b % 2 ^ w)) % 2 ^ w

/-- `BitVector::bvneg`. -/
def bvNeg (w a : Nat) : Nat := (2 ^ w - a % 2 ^ w) % 2 ^ w

/-- `BitVector::ibvmul`. -/
def bvMul (w a b : Nat) : Nat := (a * b) % 2 ^ w

/-! ## Coefficient maps (`PassNormalize::CoefficientsMap`)

A `std::map<Node, BitVector>` ordered by node id: an association list kept
sorted ascending by `nodeLt`. -/

/-- `PassNormalize::CoefficientsMap`. -/
abbrev CoeffMap := List (Node × Nat)

/-- `coeffs.find(n)` — the stored coefficient, when present. -/
def cmFind (m : CoeffMap) (n : Node) : Option Nat :=
  (m.find? fun e => e.fst = n).map Prod.snd

/-- Insert a fresh key, keeping the list sorted ascending by node id. -/
def cmInsert (n : Node) (c : Nat) : CoeffMap → CoeffMap
  | [] => [(n, c)]
  | e :: rest => if nodeLt n e.fst then (n, c) :: e :: rest else e :: cmInsert n c rest

/-- `coeffs[n] = c` — update an existing entry or insert a new one. -/
def cmSet (m : CoeffMap) (n : Node) (c : Nat) : CoeffMap :=
  if (cmFind m n).isSome then m.map fun e => if e.fst = n then (n, c) else e
  else cmInsert n c m

/-- `emplace(n, c)` followed by `ibvadd(c)` on collision: add `c` to the
coefficient of `n` (modulo `2 ^ w`), inserting `n` if absent. -/
def cmAdd (w : Nat) (m : CoeffMap) (n : Node) (c : Nat) : CoeffMap :=
  match cmFind m n with
  | some old => cmSet m n (bvAdd w old c)
  | none => cmInsert n (bvRed w c) m

/-- Subtract `c` from the coefficient of `n` (present by assumption). -/
def cmSub (w : Nat) (m : CoeffMap) (n : Node) (c : Nat) : CoeffMap :=
  match cmFind m n with
  | some old => cmSet m n (bvSub w old c)
  | none => m

/-! ## Parents maps and `_count_parents`
(src/preprocess/pass/normalize.cpp, lines 31-59) -/

/-- A parent-reference count map (`PassNormalize::ParentsMap`). -/
abbrev PMap := List (Node × Nat)

/-- Lookup in a parents map. -/
def pmGet (pm : PMap) (n : Node) : Option Nat :=
  (pm.find? fun e => e.fst = n).map Prod.snd

/-- `parents[n] += 1`. -/
def pmBump (pm : PMap) (n : Node) : PMap :=
  match pmGet pm n with
  | some c => pm.map fun e => if e.fst = n then (n, c + 1) else e
  | none => (n, 1) :: pm

/-- The traversal of `_count_parents` descends into a node exactly when
`cur.kind() == kind || (kind == BV_ADD && cur.is_inverted() &&
cur[0].kind() == kind)`. -/
def cpExpandable (k : BzKind) (n : Node) : Bool :=
  n.kind = k ∨ (k = BzKind.BV_ADD ∧ n.is_inverted ∧ n.c0.kind = k)

/-- One DFS visit of `_count_parents`: skip cached nodes; otherwise cache
the node and, when the chain descends into it, bump each child's count and
visit it. -/
def cpVisit (k : BzKind) : Node → List Node × PMap → List Node × PMap
  | n, st =>
    if n ∈ st.fst then st
    else
      let st := (n :: st.fst, st.snd)
      if cpExpandable k n then
        match n with
        | Node.un _ a => cpVisit k a (st.fst, pmBump st.snd a)
        | Node.bin _ a b =>
          let st' := cpVisit k a (st.fst, pmBump st.snd a)
          cpVisit k b (st'.fst, pmBump st'.snd b)
        | _ => st
      else st

/-- Embedding of `_count_parents`: each root gets one parent reference,
then the chain below it is traversed with a cache shared across roots. -/
def count_parents_chain (k : BzKind) (roots : List Node) : PMap :=
  (roots.foldl (fun st r => cpVisit k r (st.fst, pmBump st.snd r)) ([], [])).snd

/-! ## `is_leaf` and `compute_coefficients`
(src/preprocess/pass/normalize.cpp, lines 86-183) -/

/-- Pass-level context: the `pp_normalize_share_aware` option and the
global parent counts `d_parents` computed over the assertion set. -/
structure NCfg where
  shareAware : Bool
  dparents : Node → Option Nat

/-- Embedding of the anonymous-namespace `is_leaf` (normalize.cpp:87):
a node of a different kind is a leaf; a node of the chain kind is a leaf
iff it is known to both parent maps and its in-chain parent count is
strictly below its global parent count. -/
def is_leaf (k : BzKind) (n : Node) (dpar : Node → Option Nat) (lpar : PMap) : Bool :=
  if n.kind ≠ k then true
  else
    match dpar n with
    | none => false
    | some p =>
      match pmGet lpar n with
      | none => false
      | some pp => pp < p

/-- Coefficient pushing of `compute_coefficients`: an intermediate node
(chain kind, and in share-aware mode not an `is_leaf`) passes its
coefficient on to each child; every other node accumulates it.  On the
hash-consed DAG the source processes nodes in descending id order so that
a node's coefficient is complete before it is pushed; pushing each path's
contribution separately, as done here on the tree, yields the same sums
since coefficient addition is commutative. -/
def ccPush (cfg : NCfg) (k : BzKind) (lpar : PMap) (w : Nat) :
    Nat → Node → CoeffMap → CoeffMap
  | c, Node.un k' a, acc =>
    if k' = k ∧ ¬(cfg.shareAware ∧ is_leaf k (Node.un k' a) cfg.dparents lpar) then
      ccPush cfg k lpar w c a acc
    else cmAdd w acc (Node.un k' a) c
  | c, Node.bin k' a b, acc =>
    if k' = k ∧ ¬(cfg.shareAware ∧ is_leaf k (Node.bin k' a b) cfg.dparents lpar) then
      ccPush cfg k lpar w c b (ccPush cfg k lpar w c a acc)
    else cmAdd w acc (Node.bin k' a b) c
  | c, n, acc => cmAdd w acc n c

/-- Embedding of `PassNormalize::compute_coefficients` (normalize.cpp:105):
the top node starts with coefficient 1 and coefficients are pushed down to
the leaves of the `kind` chain, accumulating into `acc`. -/
def compute_coefficients (cfg : NCfg) (k : BzKind) (lpar : PMap) (w : Nat)
    (n : Node) (acc : CoeffMap) : CoeffMap :=
  ccPush cfg k lpar w 1 n acc

/-! ## `normalize_add` (src/preprocess/pass/normalize.cpp, lines 299-393)

The source iterates the (id-ordered) coefficient map in descending order,
folding values into `value`, expanding inverted adders (`~x = -x - 1`)
when `push_neg` and restarting the scan after each expansion, and
cancelling `x`/`~x` pairs.  The restart loop is realized with explicit
fuel; one unit is consumed per restart, so any fuel bound above the number
of possible expansions is exact. -/

/-- One scan over the snapshot of keys in descending id order.  Every
entry's coefficient is re-read from the live map since earlier steps may
have modified it.  Returns the updated map and `value`, and whether the
scan was broken by an inverted-adder expansion (`progress`). -/
def naScan (cfg : NCfg) (lpar : PMap) (w : Nat) (pushNeg : Bool) :
    List Node → CoeffMap → Nat → CoeffMap × Nat × Bool
  | [], m, v => (m, v, false)
  | cur :: rest, m, v =>
    let cc := (cmFind m cur).getD 0
    if cc = 0 then naScan cfg lpar w pushNeg rest m v
    else if cur.is_value then
      naScan cfg lpar w pushNeg rest (cmSet m cur 0) (bvAdd w v (bvMul w cur.bvVal cc))
    else if pushNeg ∧ cur.is_inverted ∧ cur.c0.kind = BzKind.BV_ADD
        ∧ (pmGet lpar cur.c0).getD 0 ≤ 1 then
      let coeff := bvNeg w cc
      let m := cmSet m cur 0
      let cfs := compute_coefficients cfg cur.c0.kind lpar w cur.c0 []
      let mv := cfs.foldl
        (fun (p : CoeffMap × Nat) e =>
          let cf := bvMul w e.snd coeff
          if e.fst.is_value then (p.fst, bvAdd w p.snd (bvMul w e.fst.bvVal cf))
          else (cmAdd w p.fst e.fst cf, p.snd))
        (m, v)
      (mv.fst, bvAdd w mv.snd coeff, true)
    else if cur.is_inverted ∧ (cmFind m cur.c0).isSome then
      let v := bvAdd w v (bvNeg w cc)
      let m := cmSet (cmSub w m cur.c0 cc) cur 0
      naScan cfg lpar w pushNeg rest m v
    else naScan cfg lpar w pushNeg rest m v

/-- The `do { progress = false; ... } while (progress)` loop of
`normalize_add`, with fuel bounding the number of restarts. -/
def naLoop (cfg : NCfg) (lpar : PMap) (w : Nat) (pushNeg : Bool) :
    Nat → CoeffMap → Nat → CoeffMap × Nat
  | 0, m, v => (m, v)
  | fuel + 1, m, v =>
    let keysDesc := (m.map Prod.fst).reverse
    match naScan cfg lpar w pushNeg keysDesc m v with
    | (m', v', true) => naLoop cfg lpar w pushNeg fuel m' v'
    | (m', v', false) => (m', v')

/-- Embedding of `PassNormalize::normalize_add` (normalize.cpp:299).
Returns the updated coefficient map and the folded `value`; with
`keepValue` a nonzero `value` is re-added to the map as a value node with
coefficient incremented by one. -/
def normalize_add (cfg : NCfg) (node : Node) (m : CoeffMap) (lpar : PMap)
    (keepValue pushNeg : Bool) : CoeffMap × Nat :=
  let w := node.width
  let mv := naLoop cfg lpar w pushNeg (2 ^ node.treeSize) m 0
  if keepValue ∧ mv.snd ≠ 0 then
    (cmAdd w mv.fst (Node.value w mv.snd) 1, mv.snd)
  else mv

/-! ## `normalize_and` is not needed by any claim; `normalize_mul`
(src/preprocess/pass/normalize.cpp, lines 425-468) -/

/-- Embedding of `PassNormalize::normalize_mul`: values are folded into
`value` with their multiplicity as exponent and their coefficient zeroed;
with `keepValue` a `value ≠ 1` is re-added with coefficient one. -/
def normalize_mul (node : Node) (m : CoeffMap) (keepValue : Bool) :
    CoeffMap × Nat :=
  let w := node.width
  let v := m.foldl
    (fun v e => if e.fst.is_value then bvMul w v (e.fst.bvVal ^ e.snd) else v) 1
  let m := m.map fun e => if e.fst.is_value then (e.fst, 0) else e
  if keepValue ∧ v ≠ 1 then
    (cmAdd w m (Node.value w v) 1, v)
  else (m, v)

/-! ## `compute_common_coefficients`
(src/preprocess/pass/normalize.cpp, lines 185-223) -/

/-- Embedding of `PassNormalize::compute_common_coefficients`: for every
key of `lhs` also present in `rhs`, the minimum of the two coefficients is
moved into the common map (skipped when zero) and subtracted from both
sides.  Returns `(lhs, rhs, common)`. -/
def compute_common_coefficients (w : Nat) (lhs rhs : CoeffMap) :
    CoeffMap × CoeffMap × CoeffMap :=
  (lhs.map Prod.fst).foldl
    (fun st n =>
      match cmFind st.fst n, cmFind st.snd.fst n with
      | some cl, some cr =>
        let occs := if cl ≤ cr then cl else cr
        if occs = 0 then st
        else
          (cmSub w st.fst n occs,
           cmSub w st.snd.fst n occs,
           cmAdd w st.snd.snd n occs)
      | _, _ => st)
    (lhs, rhs, ([] : CoeffMap))

/-! ## `mk_node` (src/preprocess/pass/normalize.cpp, lines 225-295) -/

/-- Stable insertion (descending coefficient) for the `BV_MUL` branch of
`mk_node`; equal coefficients keep their relative order (the source uses
`std::sort`, whose order on ties is implementation defined; this fixes one
realizable outcome). -/
def insertCoeffDesc (e : Node × Nat) : List (Node × Nat) → List (Node × Nat)
  | [] => [e]
  | x :: xs => if e.snd > x.snd then e :: x :: xs else x :: insertCoeffDesc e xs

/-- Sort by descending coefficient (stable). -/
def sortCoeffDesc (l : List (Node × Nat)) : List (Node × Nat) :=
  l.foldl (fun acc e => insertCoeffDesc e acc) []

/-- Drop the trailing zero-coefficient entries
(`while (coeffs_vec.back().second.is_zero()) pop_back()`). -/
def popZeros (l : List (Node × Nat)) : List (Node × Nat) :=
  (l.reverse.dropWhile fun e => e.snd = 0).reverse

/-- The inner `for` pass of `mk_node`'s `BV_MUL` branch: entry `i` is
replaced by the product of entry `i-1`'s (already updated) node with its
own, and entry `i-1`'s coefficient is decreased by entry `i`'s. -/
def combinePass (k : BzKind) (w : Nat) : List (Node × Nat) → List (Node × Nat)
  | [] => []
  | [e] => [e]
  | e0 :: e1 :: rest =>
    (e0.fst, bvSub w e0.snd e1.snd) ::
      combinePass k w ((Node.bin k e0.fst e1.fst, e1.snd) :: rest)
termination_by l => l.length

/-- The `while (coeffs_vec.size() > 1)` loop of `mk_node`'s `BV_MUL`
branch, fueled: every productive iteration strictly decreases the total
coefficient sum. -/
def mkMulLoop (k : BzKind) (w : Nat) : Nat → List (Node × Nat) → List (Node × Nat)
  | 0, v => v
  | fuel + 1, v =>
    if v.length ≤ 1 then v
    else
      let v := sortCoeffDesc v
      let v := popZeros v
      let v := combinePass k w v
      mkMulLoop k w fuel v

/-- `res = back.first` combined `cf - 1` more times with itself
(`for (i = 1; i < cf; ++i) res = mk_node(kind, {res, back.first})`). -/
def powChain (k : BzKind) (n : Node) : Nat → Node
  | 0 => n
  | 1 => n
  | c + 2 => Node.bin k (powChain k n (c + 1)) n

/-- Embedding of `PassNormalize::mk_node` (normalize.cpp:225): rebuild a
single node from a coefficient map; `none` models the null node on an
empty map.  The map is already ordered ascending by node id, matching the
source's sort. -/
def mk_node (w : Nat) (k : BzKind) (coeffs : CoeffMap) : Option Node :=
  match coeffs with
  | [] => none
  | first :: rest =>
    if k = BzKind.BV_ADD then
      let term := fun (e : Node × Nat) =>
        if e.snd = 1 then e.fst else Node.bin BzKind.BV_MUL (Node.value w e.snd) e.fst
      some (rest.foldl (fun res e => Node.bin BzKind.BV_ADD res (term e)) (term first))
    else
      let total := coeffs.foldl (fun s e => s + e.snd) 0
      let v := mkMulLoop k w (total + coeffs.length + 2) coeffs
      match v.getLast? with
      | none => none
      | some e => some (powChain k e.fst e.snd)

/-! ## `normalize_coefficients_eq_add` and `normalize_coefficients_eq`
(src/preprocess/pass/normalize.cpp, lines 472-652) -/

/-- The body of `normalize_coefficients_eq_add` for one entry of
`coeffs0`: negated occurrences are moved to the other side.  State is
`(coeffs0, coeffs1, value)`. -/
def nceqaStep (w : Nat) (st : CoeffMap × CoeffMap × Nat) (cur : Node) :
    CoeffMap × CoeffMap × Nat :=
  let one := Node.value w 1
  let coeff := (cmFind st.fst cur).getD 0
  if coeff = 0 then st
  else if cur.is_inverted then
    let negAndSt :=
      if cur.c0.kind = BzKind.BV_ADD then
        if cur.c0.c0 = one then
          (some cur.c0.c1, cmSet st.fst cur 0, bvSub w st.snd.snd coeff)
        else if cur.c0.c1 = one then
          (some cur.c0.c0, cmSet st.fst cur 0, bvSub w st.snd.snd coeff)
        else (none, st.fst, st.snd.snd)
      else (some cur.c0, cmSet st.fst cur 0, st.snd.snd)
    match negAndSt with
    | (some neg, m0, v) =>
      if neg.is_value then
        (m0, st.snd.fst, bvSub w (bvSub w v (bvMul w neg.bvVal coeff)) coeff)
      else
        (m0, cmAdd w st.snd.fst neg coeff, bvSub w v coeff)
    | (none, m0, v) => (m0, st.snd.fst, v)
  else st

/-- Embedding of `PassNormalize::normalize_coefficients_eq_add`
(normalize.cpp:472): fold `nceqaStep` over the keys of `coeffs0`. -/
def normalize_coefficients_eq_add (w : Nat) (c0 c1 : CoeffMap) (value : Nat) :
    CoeffMap × CoeffMap × Nat :=
  (c0.map Prod.fst).foldl (nceqaStep w) (c0, c1, value)

/-- Embedding of `PassNormalize::normalize_coefficients_eq`
(normalize.cpp:553): compute both coefficient maps, fold values (for
`BV_ADD` also moving negated occurrences across and combining the two
folded values into a single value entry on the left), then factor out the
common coefficients; for `BV_MUL` the common product is re-added to both
sides. -/
def normalize_coefficients_eq (cfg : NCfg) (node0 node1 : Node) :
    CoeffMap × CoeffMap :=
  let kind := node0.kind
  let w := node0.width
  let lpar := if cfg.shareAware then count_parents_chain kind [node0, node1] else []
  let c0 := compute_coefficients cfg kind lpar node0.width node0 []
  let c1 := compute_coefficients cfg kind lpar node1.width node1 []
  let cs :=
    if kind = BzKind.BV_ADD then
      let r0 := normalize_add cfg node0 c0 lpar false false
      let r1 := normalize_add cfg node1 c1 lpar false false
      let s0 := normalize_coefficients_eq_add w r0.fst r1.fst r0.snd
      let s1 := normalize_coefficients_eq_add w s0.snd.fst s0.fst r1.snd
      let c0 := s1.snd.fst
      let c1 := s1.fst
      let v0 := bvSub w s0.snd.snd s1.snd.snd
      if v0 ≠ 0 then (cmAdd w c0 (Node.value w v0) 1, c1) else (c0, c1)
    else
      let r0 := normalize_mul node0 c0 false
      let r1 := normalize_mul node1 c1 false
      let c0 := if r0.snd ≠ 1 then cmAdd w r0.fst (Node.value w r0.snd) 1 else r0.fst
      let c1 := if r1.snd ≠ 1 then cmAdd w r1.fst (Node.value w r1.snd) 1 else r1.fst
      (c0, c1)
  let cc := compute_common_coefficients w cs.fst cs.snd
  match mk_node w kind cc.snd.snd with
  | some common =>
    if kind = BzKind.BV_MUL then
      (cmAdd w cc.fst common 1, cmAdd w cc.snd.fst common 1)
    else (cc.fst, cc.snd.fst)
  | none => (cc.fst, cc.snd.fst)

/-! ## `_normalize_eq_mul` and `_normalize_eq_add`
(src/preprocess/pass/normalize.cpp, lines 654-794) -/

/-- Stable insertion ascending by node id. -/
def insertNodeAsc (n : Node) : List Node → List Node
  | [] => [n]
  | x :: xs => if nodeLt n x then n :: x :: xs else x :: insertNodeAsc n xs

/-- `std::sort` by `Node::operator<` (node id), realized stably. -/
def sortNodesAsc (l : List Node) : List Node :=
  l.foldl (fun acc n => insertNodeAsc n acc) []

/-- The right-nested multiplication chain
`left = lhs[n-1]; for i: left = mk_node(BV_MUL, {lhs[n-1-i], left})`. -/
def mulChainR : List Node → Node
  | [] => Node.bval false
  | [n] => n
  | n :: rest => Node.bin BzKind.BV_MUL n (mulChainR rest)

/-- Embedding of `PassNormalize::_normalize_eq_mul` (normalize.cpp:654):
each side's factors are listed with their multiplicities, an empty side
becomes the value one, and both sides are rebuilt as sorted chains. -/
def _normalize_eq_mul (c0 c1 : CoeffMap) : Node × Node :=
  let expand := fun (m : CoeffMap) =>
    m.foldl (fun acc e => if e.snd = 0 then acc else acc ++ List.replicate e.snd e.fst) []
  let lhs := expand c0
  let rhs := expand c1
  let lhs := if lhs.isEmpty then
      [Node.value ((c0.head?.map fun e => e.fst.width).getD 0) 1] else lhs
  let rhs := if rhs.isEmpty then
      [Node.value ((c1.head?.map fun e => e.fst.width).getD 0) 1] else rhs
  (mulChainR (sortNodesAsc lhs), mulChainR (sortNodesAsc rhs))

/-- Embedding of the anonymous-namespace `get_factorized_add`
(normalize.cpp:713): coefficient one is the node itself, all-ones is a
negation, anything else a multiplication by the coefficient value. -/
def get_factorized_add (w : Nat) (n : Node) (coeff : Nat) : Node :=
  if coeff = 1 then n
  else if coeff = 2 ^ w - 1 then Node.un BzKind.BV_NEG n
  else Node.bin BzKind.BV_MUL (Node.value w coeff) n

/-- `node::utils::mk_nary` — modelled from the spec (`node_utils` is not
in the repository slice): the left-nested chain over the argument list. -/
def mk_nary (k : BzKind) : List Node → Node
  | [] => Node.bval false
  | x :: rest => rest.foldl (Node.bin k) x

/-- Embedding of `PassNormalize::_normalize_eq_add` (normalize.cpp:730):
value entries of the left map are folded into `lvalue` (`rvalue` is never
assigned in the source), the remaining entries become factorized summands,
a nonzero folded value is appended, both sides are sorted and rebuilt,
and an empty side becomes the value zero. -/
def _normalize_eq_add (c0 c1 : CoeffMap) (w : Nat) : Node × Node :=
  let st := c0.foldl
    (fun (p : List Node × Nat) e =>
      if e.snd = 0 then p
      else if e.fst.is_value then (p.fst, bvAdd w p.snd e.fst.bvVal)
      else (p.fst ++ [get_factorized_add w e.fst e.snd], p.snd))
    ([], 0)
  let lhs := st.fst
  let lvalue := st.snd
  let rhs := c1.foldl
    (fun acc e => if e.snd = 0 then acc else acc ++ [get_factorized_add w e.fst e.snd]) []
  let rvalue : Nat := 0
  let lr :=
    if lvalue ≠ 0 then
      let lvalue := bvSub w lvalue rvalue
      if lvalue ≠ 0 then (lhs ++ [Node.value w lvalue], rhs) else (lhs, rhs)
    else if rvalue ≠ 0 then (lhs, rhs ++ [Node.value w rvalue])
    else (lhs, rhs)
  let lhs := sortNodesAsc lr.fst
  let rhs := sortNodesAsc lr.snd
  (if lhs.isEmpty then Node.value w 0 else mk_nary BzKind.BV_ADD lhs,
   if rhs.isEmpty then Node.value w 0 else mk_nary BzKind.BV_ADD rhs)

/-! ## `normalize_eq_add_mul` (src/preprocess/pass/normalize.cpp, lines 796-825) -/

/-- Embedding of `PassNormalize::normalize_eq_add_mul`: balance the two
chains; equal sides collapse to `true`; unchanged sides keep the original
equality (and report no normalization); otherwise the rebuilt equality is
returned as normalized. -/
def normalize_eq_add_mul (cfg : NCfg) (node0 node1 : Node) : Node × Bool :=
  let cs := normalize_coefficients_eq cfg node0 node1
  let lr :=
    if node0.kind = BzKind.BV_ADD then _normalize_eq_add cs.fst cs.snd node0.width
    else _normalize_eq_mul cs.fst cs.snd
  if lr.fst = lr.snd then (Node.bval true, true)
  else if lr.fst = node0 ∧ lr.snd = node1 then
    (Node.bin BzKind.EQUAL node0 node1, false)
  else (Node.bin BzKind.EQUAL lr.fst lr.snd, true)

/-! ## `remove_zero_coeffs` and `normalize_common`
(src/preprocess/pass/normalize.cpp, lines 833-899) -/

/-- Embedding of `PassNormalize::remove_zero_coeffs`. -/
def remove_zero_coeffs (m : CoeffMap) : CoeffMap :=
  m.filter fun e => e.snd ≠ 0

/-- Embedding of `PassNormalize::normalize_common` (normalize.cpp:850):
factor out the common coefficients, re-add the common node to both sides
(for either kind), drop zero coefficients, and rebuild each side —
an empty side is rebuilt as the bit-vector value zero (for both kinds).
Returns `(left, right, lhs, rhs)` with the final maps, whose sizes the
caller's guard inspects. -/
def normalize_common (k : BzKind) (lhs rhs : CoeffMap) :
    Node × Node × CoeffMap × CoeffMap :=
  let lhsW := (lhs.head?.map fun e => e.fst.width).getD 0
  let rhsW := (rhs.head?.map fun e => e.fst.width).getD 0
  let cc := compute_common_coefficients lhsW lhs rhs
  let sides :=
    match mk_node lhsW k cc.snd.snd with
    | some common => (cmAdd lhsW cc.fst common 1, cmAdd rhsW cc.snd.fst common 1)
    | none => (cc.fst, cc.snd.fst)
  let lhs := remove_zero_coeffs sides.fst
  let rhs := remove_zero_coeffs sides.snd
  let left :=
    match lhs with
    | [] => Node.value lhsW 0
    | _ => (mk_node lhsW k lhs).getD (Node.value lhsW 0)
  let right :=
    match rhs with
    | [] => Node.value rhsW 0
    | _ => (mk_node rhsW k rhs).getD (Node.value rhsW 0)
  (left, right, lhs, rhs)

/-! ## `get_top` and `rebuild_top`
(src/preprocess/pass/normalize.cpp, lines 1025-1115) -/

/-- Embedding of `PassNormalize::get_top`: descend through `BV_NOT`,
`BV_SHL`, `BV_SHR`, `BV_EXTRACT` (first child) and through `BV_CONCAT`
with a value child. -/
def get_top : Node → Node
  | Node.un BzKind.BV_NOT a => get_top a
  | Node.un BzKind.BV_EXTRACT a => get_top a
  | Node.bin BzKind.BV_SHL a _ => get_top a
  | Node.bin BzKind.BV_SHR a _ => get_top a
  | Node.bin BzKind.BV_CONCAT a b =>
    if a.is_value then get_top b
    else if b.is_value then get_top a
    else Node.bin BzKind.BV_CONCAT a b
  | n => n

/-- Embedding of `PassNormalize::rebuild_top`: rebuild the same spine
`get_top` descended through, replacing the top of the chain with the
normalized node. -/
def rebuild_top (normalized : Node) : Node → Node
  | Node.un BzKind.BV_NOT a => Node.un BzKind.BV_NOT (rebuild_top normalized a)
  | Node.un BzKind.BV_EXTRACT a => Node.un BzKind.BV_EXTRACT (rebuild_top normalized a)
  | Node.bin BzKind.BV_SHL a s => Node.bin BzKind.BV_SHL (rebuild_top normalized a) s
  | Node.bin BzKind.BV_SHR a s => Node.bin BzKind.BV_SHR (rebuild_top normalized a) s
  | Node.bin BzKind.BV_CONCAT a b =>
    if a.is_value then Node.bin BzKind.BV_CONCAT a (rebuild_top normalized b)
    else if b.is_value then Node.bin BzKind.BV_CONCAT (rebuild_top normalized a) b
    else normalized
  | _ => normalized

/-! ## `normalize_comm_assoc` (src/preprocess/pass/normalize.cpp, lines 901-979) -/

/-- The data `normalize_comm_assoc` computes: the coefficient-map sizes
before and after normalization (the quantities its replacement guard
compares) together with the returned `(node, normalized)` pair. -/
structure CommAssocInfo where
  lhsSizeBefore : Nat
  rhsSizeBefore : Nat
  lhsSizeAfter : Nat
  rhsSizeAfter : Nat
  result : Node × Bool
  deriving Repr

/-- The tail of `normalize_comm_assoc` from the replacement guard on
(normalize.cpp:956-978): when
`lhs_coeff_size <= lhs.size() && rhs_coeff_size <= rhs.size()` holds the
original node is rebuilt unchanged; otherwise the normalized sides are
pushed back through `rebuild_top` and the result reports whether anything
changed. -/
def commAssocFinish (pk : BzKind) (node0 node1 left right : Node)
    (lhsSize0 rhsSize0 : Nat) (lhs1 rhs1 : CoeffMap) : CommAssocInfo :=
  if lhsSize0 ≤ lhs1.length ∧ rhsSize0 ≤ rhs1.length then
    ⟨lhsSize0, rhsSize0, lhs1.length, rhs1.length, (Node.bin pk node0 node1, false)⟩
  else
    let rl := rebuild_top left node0
    let rr := rebuild_top right node1
    ⟨lhsSize0, rhsSize0, lhs1.length, rhs1.length,
      (Node.bin pk rl rr, decide (rl ≠ node0 ∨ rr ≠ node1))⟩

/-- Embedding of `PassNormalize::normalize_comm_assoc` (the two-node
overload, normalize.cpp:901), instrumented with the coefficient-map sizes
its guard compares.  If neither side's top is a `BV_ADD`/`BV_MUL` chain
the original node is rebuilt unchanged.  Otherwise both coefficient maps
are computed and normalized, the common part factored out, and the result
replaces the original only when the guard
`lhs_coeff_size <= lhs.size() && rhs_coeff_size <= rhs.size()` fails. -/
def normalize_comm_assoc_core (cfg : NCfg) (pk : BzKind) (node0 node1 : Node) :
    CommAssocInfo :=
  let top_lhs := get_top node0
  let top_rhs := get_top node1
  let kind :=
    if top_lhs.kind = BzKind.BV_ADD ∨ top_lhs.kind = BzKind.BV_MUL then top_lhs.kind
    else top_rhs.kind
  if ¬(kind = BzKind.BV_ADD ∨ kind = BzKind.BV_MUL) then
    ⟨0, 0, 0, 0, (Node.bin pk node0 node1, false)⟩
  else
    let lpar :=
      if cfg.shareAware then count_parents_chain kind [top_lhs, top_rhs] else []
    let lhs := compute_coefficients cfg kind lpar top_lhs.width top_lhs []
    let rhs := compute_coefficients cfg kind lpar top_rhs.width top_rhs []
    let lhsSize0 := lhs.length
    let rhsSize0 := rhs.length
    let lhs :=
      if top_lhs.kind = BzKind.BV_ADD then (normalize_add cfg top_lhs lhs lpar true true).fst
      else if top_lhs.kind = BzKind.BV_MUL then (normalize_mul top_lhs lhs true).fst
      else lhs
    let rhs :=
      if top_rhs.kind = BzKind.BV_ADD then (normalize_add cfg top_rhs rhs lpar true true).fst
      else if top_rhs.kind = BzKind.BV_MUL then (normalize_mul top_rhs rhs true).fst
      else rhs
    let nc := normalize_common kind lhs rhs
    commAssocFinish pk node0 node1 nc.fst nc.snd.fst lhsSize0 rhsSize0
      nc.snd.snd.fst nc.snd.snd.snd

/-- The `(node, normalized)` pair returned by `normalize_comm_assoc`. -/
def normalize_comm_assoc (cfg : NCfg) (pk : BzKind) (node0 node1 : Node) :
    Node × Bool :=
  (normalize_comm_assoc_core cfg pk node0 node1).result

/-! ## `rewrite_term` (src/preprocess/pass/normalize.cpp, lines 1189-1234) -/

/-- Embedding of the anonymous-namespace `rewrite_term`: on an equality
one of whose (processed) children is a `BV_MUL` and the other the value
zero, with one multiplication operand a `BV_UDIV` whose divisor equals the
other operand, the equality becomes `t = 0 ∨ t >u n`.  The `BV_MUL` side
is the first child when both are multiplications, and the `BV_UDIV` factor
is the first multiplication operand of kind `BV_UDIV`.  `none` models the
null node (no rewrite). -/
def rewrite_term (k : BzKind) (children : List Node) : Option Node :=
  if k = BzKind.EQUAL then
    match children with
    | [ch0, ch1] =>
      let mulVal : Option (Node × Node) :=
        if ch0.kind = BzKind.BV_MUL then some (ch0, ch1)
        else if ch1.kind = BzKind.BV_MUL then some (ch1, ch0)
        else none
      match mulVal with
      | some (mul, val) =>
        if val.is_value ∧ val.bvVal = 0 then
          let udivT : Option (Node × Node) :=
            if mul.c0.kind = BzKind.BV_UDIV then some (mul.c0, mul.c1)
            else if mul.c1.kind = BzKind.BV_UDIV then some (mul.c1, mul.c0)
            else none
          match udivT with
          | some (udiv, t) =>
            if udiv.c1 = t then
              some (Node.bin BzKind.OR (Node.bin BzKind.EQUAL t val)
                (Node.bin BzKind.BV_UGT t udiv.c0))
            else none
          | none => none
        else none
      | none => none
    | _ => none
  else none

/-! ## `distrib_mul` (src/preprocess/pass/normalize.cpp, lines 1327-1353) -/

/-- Embedding of the anonymous-namespace `distrib_mul`: bounded-depth
distribution of multiplication over `BV_SHL` and `BV_ADD`; at depth zero
(and for any other operand kinds) the plain multiplication is built. -/
def distrib_mul : Node → Node → Nat → Node
  | l, r, 0 => Node.bin BzKind.BV_MUL l r
  | l, r, d + 1 =>
    if l.kind = BzKind.BV_SHL then
      Node.bin BzKind.BV_SHL (distrib_mul l.c0 r d) l.c1
    else if r.kind = BzKind.BV_SHL then
      Node.bin BzKind.BV_SHL (distrib_mul r.c0 l d) r.c1
    else if l.kind = BzKind.BV_ADD then
      Node.bin BzKind.BV_ADD (distrib_mul l.c0 r d) (distrib_mul l.c1 r d)
    else if r.kind = BzKind.BV_ADD then
      Node.bin BzKind.BV_ADD (distrib_mul r.c0 l d) (distrib_mul r.c1 l d)
    else Node.bin BzKind.BV_MUL l r

/-- The recursion depth actually consumed by `distrib_mul` on the same
input: 0 when no recursive call fires, otherwise one plus the depth of the
deepest recursive call. -/
def distrib_mul_calls : Node → Node → Nat → Nat
  | _, _, 0 => 0
  | l, r, d + 1 =>
    if l.kind = BzKind.BV_SHL then 1 + distrib_mul_calls l.c0 r d
    else if r.kind = BzKind.BV_SHL then 1 + distrib_mul_calls r.c0 l d
    else if l.kind = BzKind.BV_ADD then
      1 + max (distrib_mul_calls l.c0 r d) (distrib_mul_calls l.c1 r d)
    else if r.kind = BzKind.BV_ADD then
      1 + max (distrib_mul_calls r.c0 l d) (distrib_mul_calls r.c1 l d)
    else 0

/-! ## The per-node dispatch of `PassNormalize::process`
(src/preprocess/pass/normalize.cpp, lines 1357-1457)

`process` is an iterative DAG traversal with a cache; once a node's
children are processed, the node itself is transformed by the dispatch
below.  The generic rewriter `d_rewriter.rewrite` is external to the
repository slice and is a parameter `rw`; `node::utils::rebuild_node` is
modelled as reconstruction with the processed children. -/

/-- `node::utils::rebuild_node` — modelled from the spec: the same node
with the processed children. -/
def rebuild_node (cur : Node) (children : List Node) : Node :=
  match cur, children with
  | Node.un k _, [a] => Node.un k a
  | Node.bin k _ _, [a, b] => Node.bin k a b
  | n, _ => n

/-- Embedding of the dispatch on one node inside `process` (the
`else if (it->second.is_null())` branch, normalize.cpp:1377-1445), given
the processed children.  Returns the node stored in the cache and the
contribution to the outer `normalized` flag (the `normalize_comm_assoc`
and `rewrite_term` branches bind a shadowing `normalized` and therefore
never set the outer flag). -/
def process_step (cfg : NCfg) (rw : Node → Node) (cur : Node)
    (children : List Node) : Node × Bool :=
  match children with
  | [a, b] =>
    if cur.kind = BzKind.EQUAL ∧ a.kind = b.kind
        ∧ (a.kind = BzKind.BV_ADD ∨ a.kind = BzKind.BV_MUL) then
      normalize_eq_add_mul cfg a b
    else if cur.kind = BzKind.EQUAL then
      match rewrite_term BzKind.EQUAL [a, b] with
      | some rwd => (rwd, false)
      | none => ((normalize_comm_assoc cfg BzKind.EQUAL a b).fst, false)
    else if cur.kind = BzKind.BV_ULT ∨ cur.kind = BzKind.BV_SLT then
      ((normalize_comm_assoc cfg cur.kind a b).fst, false)
    else if cur.kind = BzKind.BV_MUL then
      (rw (distrib_mul a b 5), false)
    else (rebuild_node cur children, false)
  | _ => (rebuild_node cur children, false)

/-! ## `PassNormalize::apply` (src/preprocess/pass/normalize.cpp, lines 1238-1311)

External collaborators are parameters: `aig` models the shared-cache AIG
`AND`-gate counter (`bv::AigBitblaster::count_aig_ands` accumulated over a
list, not in the repository slice; the spec calls it "a cheap counter over
the AIG DAG"); `proc` models `PassNormalize::process` on one assertion;
`subst` models `substitute(assertion, results, subst_cache)` with the
adder-sharing `results` map. -/

/-- The first loop of `apply`: each assertion not yet processed (tracked
by the assertion cache, initially `seen0`) is processed, an already-cached
assertion is pushed unchanged. -/
def processAll (proc : Node → Node) : List Node → List Node → List Node
  | _, [] => []
  | seen, a :: rest =>
    if a ∈ seen then a :: processAll proc seen rest
    else proc a :: processAll proc (a :: seen) rest

/-- The final shape of `PassNormalize::normalize_adders`
(normalize.cpp:1626-1630): one substituted assertion is pushed per input
assertion; the shared-sub-sum computation behind the substitution map is
abstracted into `subst`. -/
def normalize_adders_subst (subst : Node → Node) (assertions : List Node) :
    List Node :=
  assertions.map subst

/-- The selection between the two passes (normalize.cpp:1289-1290): the
second-pass (adder-sharing) assertions are chosen only when their AIG
count is strictly smaller than the first pass's. -/
def applyChosen (s1 s2 : Nat) (newA normA : List Node) : List Node :=
  if s2 < s1 then normA else newA

/-- The final replacement loop of `apply` (normalize.cpp:1299-1305):
`assertions.replace(i, processed[i])` exactly at the indices where the
chosen assertion differs. -/
def replaceLoop (orig chosen : List Node) : List Node :=
  List.zipWith (fun a p => if a = p then a else p) orig chosen

/-- Embedding of `PassNormalize::apply`: process every assertion, run the
adder-sharing pass, pick the smaller of the two results by AIG count, and
replace the assertions element-wise only when the chosen count strictly
beats the input's count. -/
def applyNormalize (aig : List Node → Nat) (proc : Node → Node)
    (subst : Node → Node) (seen0 : List Node) (assertions : List Node) :
    List Node :=
  let newA := processAll proc seen0 assertions
  let normA := normalize_adders_subst subst newA
  let sizeBefore := aig assertions
  let sizeAfter1 := aig newA
  let sizeAfter2 := aig normA
  let chosen := applyChosen sizeAfter1 sizeAfter2 newA normA
  let sizeAfter := min sizeAfter2 sizeAfter1
  if sizeAfter < sizeBefore then replaceLoop assertions chosen else assertions

/-! ## Concrete scenario terms used by counterexamples and witnesses -/

/-- Pass context with the default share-aware mode; in the scenarios below
every node has exactly one parent reference in the assertion DAG. -/
def cexCfg : NCfg := ⟨true, fun _ => some 1⟩

/-- Width-4 variable `y`. -/
def cexY : Node := Node.var 4 1

/-- Width-4 variable `x`. -/
def cexX : Node := Node.var 4 2

/-- Width-4 variable `z`. -/
def cexZ : Node := Node.var 4 3

/-- Width-4 variable `w`. -/
def cexW : Node := Node.var 4 4

/-- The chain `x + ~y` (width 4). -/
def cexAdd0 : Node := Node.bin BzKind.BV_ADD cexX (Node.un BzKind.BV_NOT cexY)

/-- The chain `z + w` (width 4). -/
def cexAdd1 : Node := Node.bin BzKind.BV_ADD cexZ cexW

/-- Width-1 variable `x`. -/
def cexX1 : Node := Node.var 1 1

/-- Width-1 variable `y`. -/
def cexY1 : Node := Node.var 1 2

/-- The width-1 chain `x * x`, whose single leaf has multiplicity
`2 mod 2^1 = 0`. -/
def cexMul1 : Node := Node.bin BzKind.BV_MUL cexX1 cexX1

/-- Width-4 variable `t` for the udiv rewrite. -/
def cexT : Node := Node.var 4 5

/-- Width-4 variable `n` for the udiv rewrite. -/
def cexN : Node := Node.var 4 6

/-- A `t` of kind `BV_UDIV`: `var 7 / var 8` (width 4). -/
def cexUdivT : Node := Node.bin BzKind.BV_UDIV (Node.var 4 7) (Node.var 4 8)

/-! # Theorems -/

/-- C1: for every `find_model` invocation: when the E-step runs, E-`Unsat`
returns `Unsat` and E-`Unknown` returns `Unknown`; past the E-step, with
no universal variables the candidate `g` is asserted to the F-solver and
the F-solver's result is returned; otherwise `¬g` is assumed and
F-`Unsat` yields `Sat` while F-`Unknown` yields `Unknown`. -/
theorem find_model_main_loop (skipExists hasUvars : Bool) (eRes fRes : Result) :
    (skipExists = false → eRes = Result.Unsat →
      find_model skipExists hasUvars eRes fRes = ⟨Result.Unsat, none, false⟩) ∧
    (skipExists = false → eRes = Result.Unknown →
      find_model skipExists hasUvars eRes fRes = ⟨Result.Unknown, none, false⟩) ∧
    ((skipExists = true ∨ eRes = Result.Sat) → hasUvars = false →
      find_model skipExists hasUvars eRes fRes = ⟨fRes, some FAction.assertedG, false⟩) ∧
    ((skipExists = true ∨ eRes = Result.Sat) → hasUvars = true →
      (find_model skipExists hasUvars eRes fRes).fAction = some FAction.assumedNotG ∧
      (fRes = Result.Unsat →
        (find_model skipExists hasUvars eRes fRes).res = Result.Sat) ∧
      (fRes = Result.Unknown →
        (find_model skipExists hasUvars eRes fRes).res = Result.Unknown)) := by
  cases skipExists <;> cases hasUvars <;> cases eRes <;> cases fRes <;> decide

/-- Witness for `find_model_main_loop`: the ground branch at a concrete
input. -/
theorem find_model_main_loop_witness :
    find_model false false Result.Sat Result.Sat
      = ⟨Result.Sat, some FAction.assertedG, false⟩ :=
  (find_model_main_loop false false Result.Sat Result.Sat).2.2.1 (Or.inr rfl) rfl

/-- C2: the deterministic selection after both worker threads joined:
a definite primary result wins; otherwise the dual's definite result is
translated by the negation convention (dual `Sat` means original `Unsat`,
dual `Unsat` means original `Sat`). -/
theorem run_parallel_selection (primary dual : Result) :
    ((primary = Result.Sat ∨ primary = Result.Unsat) →
      run_parallel_select primary dual = primary) ∧
    (primary = Result.Unknown →
      (dual = Result.Sat → run_parallel_select primary dual = Result.Unsat) ∧
      (dual = Result.Unsat → run_parallel_select primary dual = Result.Sat)) := by
  cases primary <;> cases dual <;> decide

/-- Witness for `run_parallel_selection`: the dual-`Sat` translation at a
concrete input. -/
theorem run_parallel_selection_witness :
    run_parallel_select Result.Unknown Result.Sat = Result.Unsat :=
  ((run_parallel_selection Result.Unknown Result.Sat).2 rfl).1 rfl

/-- Helper: the recursion depth consumed by `distrib_mul` never exceeds
the depth bound. -/
theorem distrib_mul_calls_le (d : Nat) : ∀ l r : Node, distrib_mul_calls l r d ≤ d := by
  induction d with
  | zero => intro l r; simp [distrib_mul_calls]
  | succ n ih =>
    intro l r
    simp only [distrib_mul_calls]
    split
    · have h1 := ih l.c0 r; omega
    · split
      · have h1 := ih r.c0 l; omega
      · split
        · have h1 := ih l.c0 r
          have h2 := ih l.c1 r
          omega
        · split
          · have h1 := ih r.c0 l
            have h2 := ih r.c1 l
            omega
          · exact Nat.zero_le _

/-- C8: `distrib_mul` is total with recursion depth bounded by the depth
argument — the bound strictly decreases at each recursive call and depth
zero stops immediately with the plain multiplication — and the `process`
dispatch invokes it with the default bound 5 on every `BV_MUL` node. -/
theorem distrib_mul_bounded_and_invoked :
    (∀ l r : Node, distrib_mul l r 0 = Node.bin BzKind.BV_MUL l r) ∧
    (∀ (l r : Node) (d : Nat), distrib_mul_calls l r d ≤ d) ∧
    (∀ (cfg : NCfg) (rw : Node → Node) (cur a b : Node),
      cur.kind = BzKind.BV_MUL →
      process_step cfg rw cur [a, b] = (rw (distrib_mul a b 5), false)) := by
  refine ⟨fun l r => rfl, fun l r d => distrib_mul_calls_le d l r, ?_⟩
  intro cfg rw cur a b h
  simp [process_step, h]

/-- Witness for `distrib_mul_bounded_and_invoked`: the `BV_MUL` dispatch
at a concrete node. -/
theorem distrib_mul_bounded_and_invoked_witness :
    process_step cexCfg id (Node.bin BzKind.BV_MUL cexX cexY) [cexX, cexY]
      = (id (distrib_mul cexX cexY 5), false) :=
  distrib_mul_bounded_and_invoked.2.2 cexCfg id
    (Node.bin BzKind.BV_MUL cexX cexY) cexX cexY rfl

/-- Helper: the kind of a binary node. -/
theorem kind_bin (k : BzKind) (a b : Node) : (Node.bin k a b).kind = k := rfl

/-- Helper: the kind of a unary node. -/
theorem kind_un (k : BzKind) (a : Node) : (Node.un k a).kind = k := rfl

/-- Helper: the first child of a binary node. -/
theorem c0_bin (k : BzKind) (a b : Node) : (Node.bin k a b).c0 = a := rfl

/-- Helper: the second child of a binary node. -/
theorem c1_bin (k : BzKind) (a b : Node) : (Node.bin k a b).c1 = b := rfl

/-- C7 counterexample: a `BV_MUL` with operands `t` and `BV_UDIV(n, t)`
compared against the zero value, where `t` is itself of kind `BV_UDIV`
and sits in the first operand slot: the code selects `t` as the udiv
factor, the divisor check fails, and no rewrite fires — while the claim
demands the disjunction.  The last conjuncts record that the input indeed
has the claimed shape. -/
theorem rewrite_term_udiv_cex :
    rewrite_term BzKind.EQUAL
      [Node.bin BzKind.BV_MUL cexUdivT (Node.bin BzKind.BV_UDIV cexN cexUdivT),
       Node.value 4 0] = none ∧
    (Node.value 4 0).is_value = true ∧
    (Node.value 4 0).bvVal = 0 ∧
    (Node.bin BzKind.BV_UDIV cexN cexUdivT).c1 = cexUdivT := by
  decide

/-- C7 amended: the equality `mul = 0` is rewritten to
`t = 0 ∨ t >u n` where the code selects the first multiplication operand
of kind `BV_UDIV` as the udiv factor: the rewrite fires whenever the
`BV_UDIV(n, t)` factor is the first operand, and when it is the second
operand only if `t` is not itself of kind `BV_UDIV`. -/
theorem rewrite_term_udiv_amended (t n v mul : Node)
    (hv : v.is_value = true) (hz : v.bvVal = 0)
    (hmul : mul = Node.bin BzKind.BV_MUL (Node.bin BzKind.BV_UDIV n t) t
      ∨ (mul = Node.bin BzKind.BV_MUL t (Node.bin BzKind.BV_UDIV n t)
          ∧ t.kind ≠ BzKind.BV_UDIV)) :
    rewrite_term BzKind.EQUAL [mul, v]
      = some (Node.bin BzKind.OR (Node.bin BzKind.EQUAL t v)
          (Node.bin BzKind.BV_UGT t n)) ∧
    rewrite_term BzKind.EQUAL [v, mul]
      = some (Node.bin BzKind.OR (Node.bin BzKind.EQUAL t v)
          (Node.bin BzKind.BV_UGT t n)) := by
  have hvk : v.kind = BzKind.VALUE := by
    simpa [Node.is_value] using hv
  rcases hmul with h | ⟨h, ht⟩ <;> subst h
  · constructor <;>
      simp [rewrite_term, Node.is_value, kind_bin, c0_bin, c1_bin, hvk, hz]
  · constructor <;>
      simp [rewrite_term, Node.is_value, kind_bin, c0_bin, c1_bin, hvk, hz, ht]

/-- Witness for `rewrite_term_udiv_amended`: the rewrite at a concrete
variable `t`. -/
theorem rewrite_term_udiv_amended_witness :
    rewrite_term BzKind.EQUAL
      [Node.bin BzKind.BV_MUL cexT (Node.bin BzKind.BV_UDIV cexN cexT),
       Node.value 4 0]
      = some (Node.bin BzKind.OR (Node.bin BzKind.EQUAL cexT (Node.value 4 0))
          (Node.bin BzKind.BV_UGT cexT cexN)) :=
  (rewrite_term_udiv_amended cexT cexN (Node.value 4 0) _ (by decide) (by decide)
    (Or.inr ⟨rfl, by decide⟩)).1

/-- C6: every successful run of `refine_exists_solver` (the E-Sat/F-Sat
case) finds the extracted counter-example absent from `forall_ces` and
inserts it, strictly increasing the table's cardinality; and `find_model`
runs the refinement exactly when the E-step passed (skipped or `Sat`),
universal variables exist, and the F-solver returned `Sat` — in every
other case `find_model` has already returned without refining. -/
theorem refine_grows_forall_ces :
    (∀ (rt : Bool) (ce : CeTuple) (tup : List Nat)
        (ces ces' : List (CeTuple × List Nat)),
      refine_exists_solver rt ce tup ces = some ces' →
        ce ∉ ces.map Prod.fst ∧
        ces'.length = ces.length + 1 ∧
        (ces'.map Prod.fst).toFinset.card
          = (ces.map Prod.fst).toFinset.card + 1) ∧
    (∀ (se hu : Bool) (e f : Result),
      (find_model se hu e f).refined = true ↔
        (se = true ∨ e = Result.Sat) ∧ hu = true ∧ f = Result.Sat) := by
  constructor
  · intro rt ce tup ces ces' h
    simp only [refine_exists_solver] at h
    split at h
    · exact absurd h (by simp)
    · split at h
      · exact absurd h (by simp)
      · rename_i hmem
        have hnotin : ce ∉ ces.map Prod.fst := hmem
        have hceq : ces' = ces ++ [(ce, tup)] := by
          exact (Option.some.injEq _ _ ▸ h).symm
        subst hceq
        refine ⟨hnotin, by simp, ?_⟩
        have hmap : (ces ++ [(ce, tup)]).map Prod.fst = ces.map Prod.fst ++ [ce] := by
          simp
        rw [hmap, List.toFinset_append]
        have : (ces.map Prod.fst).toFinset ∪ ([ce].toFinset)
            = insert ce (ces.map Prod.fst).toFinset := by
          simp [Finset.union_comm, Finset.insert_eq]
        rw [this, Finset.card_insert_of_not_mem (by simpa using hnotin)]
  · intro se hu e f
    cases se <;> cases hu <;> cases e <;> cases f <;> decide

/-- Witness for `refine_grows_forall_ces`: a successful refinement on an
empty table. -/
theorem refine_grows_forall_ces_witness :
    ([3] : CeTuple) ∉ ([] : List (CeTuple × List Nat)).map Prod.fst ∧
    ([(([3] : CeTuple), [7])] : List (CeTuple × List Nat)).length
      = ([] : List (CeTuple × List Nat)).length + 1 ∧
    (([(([3] : CeTuple), [7])] : List (CeTuple × List Nat)).map Prod.fst).toFinset.card
      = (([] : List (CeTuple × List Nat)).map Prod.fst).toFinset.card + 1 :=
  refine_grows_forall_ces.1 false [3] [7] [] [([3], [7])] rfl

/-- Helper: `find?` on the rows generated from the counter-example list
finds the row keyed by a member tuple, and that row carries the generated
values for exactly that tuple. -/
theorem find_in_rows (g : CeTuple → List Nat) (c : CeTuple) :
    ∀ ces : List CeTuple, c ∈ ces →
      (ces.map fun ce => (ce, g ce)).find? (fun row => row.fst = c)
        = some (c, g c) := by
  intro ces
  induction ces with
  | nil => intro h; cases h
  | cons a as ih =>
    intro h
    by_cases hac : a = c
    · subst hac
      simp [List.find?_cons_of_pos]
    · have hmem : c ∈ as := by
        cases h with
        | head => exact absurd rfl hac
        | tail _ h' => exact h'
      rw [List.map_cons, List.find?_cons_of_neg, ih hmem]
      simp [hac]

/-- C9: an existential variable with no entry in `forall_evar_deps` gets
the same E-model value in every row of the flat model, so
`flat_model_get_value` for it returns that value both when queried with
any recorded counter-example and when queried without one (reading the
first row). -/
theorem flat_model_outer_evar_const (m : EModel) (evars : List EvarInfo)
    (ces : List CeTuple) (i : Nat) (ev : EvarInfo)
    (hev : evars[i]? = some ev) (hdeps : ev.deps = none) :
    (∀ ce ∈ ces,
      flat_model_get_value (flat_model_generate m evars ces) i (some ce)
        = some (m.bv ev.id)) ∧
    (ces ≠ [] →
      flat_model_get_value (flat_model_generate m evars ces) i none
        = some (m.bv ev.id)) := by
  have hrow : ∀ ce : CeTuple,
      (Option.map (flat_model_evar_value m ce) evars[i]?).getD 0 = m.bv ev.id := by
    intro ce
    rw [hev]
    simp [flat_model_evar_value, hdeps]
  constructor
  · intro ce hce
    show ((flat_model_generate m evars ces).find? fun row => row.fst = ce).map
        (fun row => row.snd.getD i 0) = some (m.bv ev.id)
    rw [flat_model_generate, find_in_rows _ ce ces hce]
    simp [hrow]
  · intro hne
    match ces, hne with
    | c :: cs, _ =>
      show ((flat_model_generate m evars (c :: cs)).head?).map
          (fun row => row.snd.getD i 0) = some (m.bv ev.id)
      simp [flat_model_generate, hrow]

/-- Witness for `flat_model_outer_evar_const`: a dependency-free
existential variable over two counter-example rows. -/
theorem flat_model_outer_evar_const_witness :
    flat_model_get_value
      (flat_model_generate ⟨fun _ => 9, fun _ _ => none⟩ [⟨0, none⟩] [[1], [2]])
      0 (some [1]) = some 9 :=
  (flat_model_outer_evar_const ⟨fun _ => 9, fun _ _ => none⟩ [⟨0, none⟩]
    [[1], [2]] 0 ⟨0, none⟩ rfl rfl).1 [1] (by simp)

/-- Helper: the first `apply` loop pushes exactly one assertion per input
assertion. -/
theorem processAll_length (proc : Node → Node) :
    ∀ (seen l : List Node), (processAll proc seen l).length = l.length := by
  intro seen l
  induction l generalizing seen with
  | nil => rfl
  | cons a rest ih =>
    simp only [processAll]
    split <;> simp [ih]

/-- C10: `PassNormalize::apply` neither adds nor removes assertions: the
pass output has exactly as many assertions as the input, for every
counter, process function, and substitution. -/
theorem applyNormalize_preserves_count (aig : List Node → Nat)
    (proc subst : Node → Node) (seen0 assertions : List Node) :
    (applyNormalize aig proc subst seen0 assertions).length
      = assertions.length := by
  have hlen := processAll_length proc seen0 assertions
  simp only [applyNormalize, normalize_adders_subst, applyChosen, replaceLoop]
  split
  · split <;> simp [List.length_zipWith, hlen]
  · rfl

/-- C3: the second-pass (adder-sharing) assertions are chosen over the
first-pass assertions only when their AIG count is strictly smaller; and
the input assertions are replaced (element-wise by the chosen list) only
when the chosen list's AIG count — the minimum of the two — is strictly
smaller than the input's AIG count, otherwise the input is returned
unchanged. -/
theorem applyNormalize_aig_guard (aig : List Node → Nat)
    (proc subst : Node → Node) (seen0 assertions newA normA : List Node)
    (hnew : newA = processAll proc seen0 assertions)
    (hnorm : normA = normalize_adders_subst subst newA) :
    (¬ aig normA < aig newA →
      applyChosen (aig newA) (aig normA) newA normA = newA) ∧
    (¬ min (aig normA) (aig newA) < aig assertions →
      applyNormalize aig proc subst seen0 assertions = assertions) ∧
    (min (aig normA) (aig newA) < aig assertions →
      applyNormalize aig proc subst seen0 assertions
        = replaceLoop assertions (applyChosen (aig newA) (aig normA) newA normA)) := by
  subst hnorm
  subst hnew
  refine ⟨?_, ?_, ?_⟩
  · intro h
    simp [applyChosen, h]
  · intro h
    simp only [applyNormalize]
    rw [if_neg h]
  · intro h
    simp only [applyNormalize]
    rw [if_pos h]

/-- Witness for `applyNormalize_aig_guard`: with a counter that cannot
shrink, the single input assertion is kept unchanged. -/
theorem applyNormalize_aig_guard_witness :
    applyNormalize (fun l => l.length) id id [] [cexX] = [cexX] :=
  (applyNormalize_aig_guard (fun l => l.length) id id [] [cexX] [cexX] [cexX]
    (by decide) (by decide)).2.1 (by decide)

/-- Helper: a property holding for both branches holds for the
conditional. -/
theorem ite_prop_cases {α : Sort _} (P : α → Prop) (C : Prop) [Decidable C]
    (A B : α) (hA : P A) (hB : P B) : P (if C then A else B) := by
  split <;> assumption

/-- Helper: when `commAssocFinish` reports a normalization, its guard
failed, so one side's coefficient-map size strictly decreased. -/
theorem commAssocFinish_shrinks (pk : BzKind) (node0 node1 left right : Node)
    (l0 r0 : Nat) (lhs1 rhs1 : CoeffMap)
    (h : (commAssocFinish pk node0 node1 left right l0 r0 lhs1 rhs1).result.snd = true) :
    (commAssocFinish pk node0 node1 left right l0 r0 lhs1 rhs1).lhsSizeAfter
        < (commAssocFinish pk node0 node1 left right l0 r0 lhs1 rhs1).lhsSizeBefore ∨
      (commAssocFinish pk node0 node1 left right l0 r0 lhs1 rhs1).rhsSizeAfter
        < (commAssocFinish pk node0 node1 left right l0 r0 lhs1 rhs1).rhsSizeBefore := by
  unfold commAssocFinish at h ⊢
  split at h
  · simp at h
  · rename_i hguard
    rw [if_neg hguard]
    dsimp only
    omega

set_option maxRecDepth 8000 in
/-- C4 counterexample: on `eq(x + ~y, z + w)` (width 4) the
`normalize_eq_add_mul` balancing reports a normalization — so the result
replaces the original — yet the result has strictly more nodes than the
original, both counted as a hash-consed DAG and as a tree: no node-count
guard exists on this path. -/
theorem normalize_eq_node_count_cex :
    (normalize_eq_add_mul cexCfg cexAdd0 cexAdd1).snd = true ∧
    (normalize_eq_add_mul cexCfg cexAdd0 cexAdd1).fst
      ≠ Node.bin BzKind.EQUAL cexAdd0 cexAdd1 ∧
    dagCount (Node.bin BzKind.EQUAL cexAdd0 cexAdd1)
      < dagCount (normalize_eq_add_mul cexCfg cexAdd0 cexAdd1).fst ∧
    Node.treeSize (Node.bin BzKind.EQUAL cexAdd0 cexAdd1)
      < Node.treeSize (normalize_eq_add_mul cexCfg cexAdd0 cexAdd1).fst := by
  decide

/-- C4 amended: for `BV_ULT`/`BV_SLT` and mixed `EQUAL`
(`normalize_comm_assoc`) the normalized term replaces the original only
when at least one side's coefficient-map entry count strictly decreases
(the guard compares coefficient-map sizes, not node counts); for `EQUAL`
with both sides chains of the same AC kind (`normalize_eq_add_mul`) the
normalized term replaces the original exactly when it differs from the
original equality, with no size guard. -/
theorem normalize_balance_replacement_amended (cfg : NCfg) (pk : BzKind)
    (n0 n1 : Node) :
    (normalize_comm_assoc cfg pk n0 n1
        = (normalize_comm_assoc_core cfg pk n0 n1).result) ∧
    ((normalize_comm_assoc_core cfg pk n0 n1).result.snd = true →
      (normalize_comm_assoc_core cfg pk n0 n1).lhsSizeAfter
          < (normalize_comm_assoc_core cfg pk n0 n1).lhsSizeBefore ∨
        (normalize_comm_assoc_core cfg pk n0 n1).rhsSizeAfter
          < (normalize_comm_assoc_core cfg pk n0 n1).rhsSizeBefore) ∧
    ((normalize_eq_add_mul cfg n0 n1).snd = true ↔
      (normalize_eq_add_mul cfg n0 n1).fst ≠ Node.bin BzKind.EQUAL n0 n1) := by
  refine ⟨rfl, ?_, ?_⟩
  · show (fun info : CommAssocInfo => info.result.snd = true →
      info.lhsSizeAfter < info.lhsSizeBefore ∨ info.rhsSizeAfter < info.rhsSizeBefore)
      (normalize_comm_assoc_core cfg pk n0 n1)
    unfold normalize_comm_assoc_core
    dsimp only
    exact ite_prop_cases
      (fun info : CommAssocInfo => info.result.snd = true →
        info.lhsSizeAfter < info.lhsSizeBefore ∨ info.rhsSizeAfter < info.rhsSizeBefore)
      _ _ _ (by simp) (fun h => commAssocFinish_shrinks _ _ _ _ _ _ _ _ _ h)
  · simp only [normalize_eq_add_mul]
    split <;>
    · split
      · simp
      · split
        · simp
        · rename_i h2
          simp only [ne_eq, Node.bin.injEq, true_and]
          constructor
          · intro _ hcon
            exact h2 hcon
          · intro _
            trivial

set_option maxRecDepth 8000 in
/-- Witness for `normalize_balance_replacement_amended`: on
`ult(x * x, y)` at width 1 the comparison is normalized and indeed one
coefficient-map size strictly decreased. -/
theorem normalize_balance_replacement_amended_witness :
    (normalize_comm_assoc_core cexCfg BzKind.BV_ULT cexMul1 cexY1).lhsSizeAfter
        < (normalize_comm_assoc_core cexCfg BzKind.BV_ULT cexMul1 cexY1).lhsSizeBefore ∨
      (normalize_comm_assoc_core cexCfg BzKind.BV_ULT cexMul1 cexY1).rhsSizeAfter
        < (normalize_comm_assoc_core cexCfg BzKind.BV_ULT cexMul1 cexY1).rhsSizeBefore :=
  (normalize_balance_replacement_amended cexCfg BzKind.BV_ULT cexMul1 cexY1).2.1
    (by decide)

set_option maxRecDepth 8000 in
/-- C5 counterexample: a `BV_MUL` side whose coefficient map is empty
after common-coefficient subtraction (reachable: on `ult(x * x, y)` at
width 1 the single leaf `x` gets multiplicity `2 mod 2 = 0`) is rebuilt by
`normalize_common` as the bit-vector value 0, not the multiplicative
neutral element 1. -/
theorem normalize_common_mul_neutral_cex :
    (normalize_common BzKind.BV_MUL [(cexX1, 0)] [(cexY1, 1)]).snd.snd.fst = [] ∧
    (normalize_common BzKind.BV_MUL [(cexX1, 0)] [(cexY1, 1)]).fst = Node.value 1 0 ∧
    Node.value 1 0 ≠ Node.value 1 1 ∧
    normalize_comm_assoc cexCfg BzKind.BV_ULT cexMul1 cexY1
      = (Node.bin BzKind.BV_ULT (Node.value 1 0) cexY1, true) := by
  decide

/-- Helper: a fold whose step ignores zero-coefficient entries leaves the
accumulator unchanged on an all-zero map. -/
theorem foldl_const_of_zero {β : Type _} (g : β → Node × Nat → β)
    (hg : ∀ b e, e.snd = 0 → g b e = b) :
    ∀ (l : CoeffMap) (b : β), (∀ e ∈ l, e.snd = 0) → l.foldl g b = b := by
  intro l
  induction l with
  | nil => intro b _; rfl
  | cons a as ih =>
    intro b h
    rw [List.foldl_cons, hg b a (h a (List.mem_cons_self a as))]
    exact ih b fun e he => h e (List.mem_cons_of_mem a he)

/-- C5 amended: in `_normalize_eq_add` and `_normalize_eq_mul` an empty
side is reconstructed as the neutral element of the chain kind (0 for
`BV_ADD`, 1 for `BV_MUL`); in `normalize_common` an empty side is
reconstructed as the bit-vector value 0 regardless of the chain kind,
also for `BV_MUL`. -/
theorem normalize_empty_side_amended (k : BzKind) (lhs rhs c0 c1 : CoeffMap)
    (w : Nat) :
    ((normalize_common k lhs rhs).snd.snd.fst = [] →
      (normalize_common k lhs rhs).fst
        = Node.value ((lhs.head?.map fun e => e.fst.width).getD 0) 0) ∧
    ((normalize_common k lhs rhs).snd.snd.snd = [] →
      (normalize_common k lhs rhs).snd.fst
        = Node.value ((rhs.head?.map fun e => e.fst.width).getD 0) 0) ∧
    ((∀ e ∈ c0, e.snd = 0) →
      (_normalize_eq_add c0 c1 w).fst = Node.value w 0) ∧
    ((∀ e ∈ c0, e.snd = 0) →
      (_normalize_eq_mul c0 c1).fst
        = Node.value ((c0.head?.map fun e => e.fst.width).getD 0) 1) := by
  refine ⟨?_, ?_, ?_, ?_⟩
  · simp only [normalize_common]
    intro h
    rw [h]
  · simp only [normalize_common]
    intro h
    rw [h]
  · intro h
    simp only [_normalize_eq_add]
    rw [foldl_const_of_zero _ (fun b e he => by simp [he]) c0 ([], 0) h]
    simp [sortNodesAsc]
  · intro h
    simp only [_normalize_eq_mul]
    rw [foldl_const_of_zero _ (fun b e he => by simp [he]) c0 [] h]
    simp [sortNodesAsc, insertNodeAsc, mulChainR]

/-- Witness for `normalize_empty_side_amended`: an all-zero `BV_ADD` side
is rebuilt as the value 0. -/
theorem normalize_empty_side_amended_witness :
    (normalize_common BzKind.BV_ADD [(cexX1, 0)] [(cexY1, 1)]).fst
      = Node.value 1 0 :=
  (normalize_empty_side_amended BzKind.BV_ADD [(cexX1, 0)] [(cexY1, 1)] [] [] 1).1
    (by decide)

end Bzla
